import Mathlib

/-!
Verification of the natural-language specification of the azuredatastudio
extension suite against a shallow embedding of its TypeScript sources.

Each section embeds the data model and operations of one part of the
code base (pure functions become Lean functions, stateful code becomes
explicit state passing, fallible code returns `Except`/`Option`), and the
theorems settle the spec's claims about them.
-/

set_option autoImplicit false

namespace AzureDataStudio

/-! ## Comparison validations (arc extension, `validations.ts`)

The validation engine's values are `string | number | undefined`
(`ValidationValueType` in the source).  JavaScript numbers are modelled as
exact decimals `mantissa * 10 ^ exponent`: every numeric literal
exercised by the validation tests is exactly representable this way, and
the claims under study do not depend on binary floating-point rounding.
`Decimal.toRat` interprets such a value as a rational number, and
`Decimal.ble` is the executable comparison, proved below to agree with
the rational order. -/

/-- An exact decimal number `mantissa * 10 ^ exponent`. -/
structure Decimal where
  mantissa : Int
  exponent : Int
deriving DecidableEq

/-- The rational value of a decimal. -/
def Decimal.toRat (d : Decimal) : ℚ := (d.mantissa : ℚ) * (10 : ℚ) ^ d.exponent

/-- Executable order on decimals: rescale both operands to the smaller
exponent and compare the integer mantissas. -/
def Decimal.ble (a b : Decimal) : Bool :=
  let m := min a.exponent b.exponent
  decide (a.mantissa * (10 : Int) ^ (a.exponent - m).toNat ≤
          b.mantissa * (10 : Int) ^ (b.exponent - m).toNat)

theorem Decimal.scale_toRat (d : Decimal) (m : Int) (hm : m ≤ d.exponent) :
    d.toRat = ((d.mantissa * (10 : Int) ^ (d.exponent - m).toNat : Int) : ℚ) * (10 : ℚ) ^ m := by
  have hnn : (0 : Int) ≤ d.exponent - m := by omega
  have hcast : ((d.exponent - m).toNat : Int) = d.exponent - m := Int.toNat_of_nonneg hnn
  have h10 : ((10 : Int) : ℚ) = (10 : ℚ) := by norm_num
  push_cast
  rw [mul_assoc, ← zpow_natCast (10 : ℚ) (d.exponent - m).toNat, hcast,
    ← zpow_add₀ (by norm_num : (10 : ℚ) ≠ 0)]
  simp [Decimal.toRat]

theorem Decimal.ble_eq_decide (a b : Decimal) :
    a.ble b = decide (a.toRat ≤ b.toRat) := by
  set m := min a.exponent b.exponent with hm
  have ha : m ≤ a.exponent := min_le_left _ _
  have hb : m ≤ b.exponent := min_le_right _ _
  have hpos : (0 : ℚ) < (10 : ℚ) ^ m := by positivity
  have key : (a.toRat ≤ b.toRat) ↔
      (a.mantissa * (10 : Int) ^ (a.exponent - m).toNat ≤
       b.mantissa * (10 : Int) ^ (b.exponent - m).toNat) := by
    rw [Decimal.scale_toRat a m ha, Decimal.scale_toRat b m hb,
      mul_le_mul_right hpos, Int.cast_le]
  simp only [Decimal.ble, decide_eq_decide]
  exact key.symm

/-- The type `ValidationValueType = string | number | undefined` from
`validations.ts`. -/
inductive ValidationValueType where
  | str (s : String)
  | num (d : Decimal)
  | undef
deriving DecidableEq

/-- One run of decimal digits: accumulated value, number of digits
consumed, remaining characters. -/
def parseDigitRun : List Char → Nat → Nat → Nat × Nat × List Char
  | [], acc, n => (acc, n, [])
  | c :: cs, acc, n =>
    if c.isDigit then parseDigitRun cs (acc * 10 + (c.toNat - 48)) (n + 1)
    else (acc, n, c :: cs)

/-- An optional leading sign. -/
def parseSign : List Char → Int × List Char
  | '-' :: cs => (-1, cs)
  | '+' :: cs => (1, cs)
  | cs => (1, cs)

/-- Decimal number syntax `[sign] digits [. digits] [e|E [sign] digits]`,
as accepted by the JavaScript numeric coercion on the strings exercised
by the validation tests; anything else coerces to NaN, modelled as
`none`. -/
def parseNumChars (cs : List Char) : Option Decimal :=
  let s1 := parseSign cs
  let ipr := parseDigitRun s1.2 0 0
  if ipr.2.1 = 0 then none else
  let fpr :=
    match ipr.2.2 with
    | '.' :: cs' => parseDigitRun cs' 0 0
    | rest => (0, 0, rest)
  let mant : Int := s1.1 * ((ipr.1 : Int) * (10 : Int) ^ fpr.2.1 + (fpr.1 : Int))
  match fpr.2.2 with
  | [] => some ⟨mant, -(fpr.2.1 : Int)⟩
  | c :: cs' =>
    if c = 'e' ∨ c = 'E' then
      let es := parseSign cs'
      let epr := parseDigitRun es.2 0 0
      if epr.2.1 = 0 ∨ epr.2.2 ≠ [] then none
      else some ⟨mant, es.1 * (epr.1 : Int) - (fpr.2.1 : Int)⟩
    else none

/-- Numeric coercion of a string operand. -/
def parseNum (s : String) : Option Decimal := parseNumChars s.data

/-- Lexicographic comparison of character lists: the comparison JavaScript
performs on two string operands. -/
def charListLeq : List Char → List Char → Bool
  | [], _ => true
  | _ :: _, [] => false
  | a :: as, b :: bs => if a = b then charListLeq as bs else decide (a < b)

/-- `strLeq s t` is the JavaScript string comparison `s <= t`. -/
def strLeq (s t : String) : Bool := charListLeq s.data t.data

/-- Modelled from the spec: the implementations of
`LessThanOrEqualsValidation` and `GreaterThanOrEqualsValidation`
(`validations.ts` of the arc extension) are not under the source tree;
only their test suite is.  The spec describes "typed comparison semantics
across string/number operands": operands of the same type use that type's
native comparison (lexicographic for strings), a string/number mix is
compared numerically, and an undefined operand makes the validation
invalid.  `jsLeq a b` is the modelled `a <= b`. -/
def jsLeq : ValidationValueType → ValidationValueType → Bool
  | .undef, _ => false
  | _, .undef => false
  | .str a, .str b => strLeq a b
  | .num a, .num b => a.ble b
  | .str a, .num b =>
    match parseNum a with
    | none => false
    | some q => q.ble b
  | .num a, .str b =>
    match parseNum b with
    | none => false
    | some q => a.ble q

/-- `LessThanOrEqualsValidation` holds of `(value, target)` when
`value <= target` under the typed comparison semantics. -/
def LessThanOrEqualsValidation.isValid (value target : ValidationValueType) : Bool :=
  jsLeq value target

/-- `GreaterThanOrEqualsValidation` holds of `(value, target)` when
`value >= target`, i.e. `target <= value`, under the typed comparison
semantics. -/
def GreaterThanOrEqualsValidation.isValid (value target : ValidationValueType) : Bool :=
  jsLeq target value

theorem charListLeq_iff : ∀ as bs : List Char, charListLeq as bs = true ↔ ¬ bs < as
  | [], bs => by
    simp only [charListLeq]
    constructor
    · intro _ h
      cases h
    · intro _
      trivial
  | a :: as, [] => by
    simp only [charListLeq]
    constructor
    · intro h
      cases h
    · intro h
      exact absurd List.Lex.nil h
  | a :: as, b :: bs => by
    by_cases hab : a = b
    · subst hab
      have hstep : charListLeq (a :: as) (a :: bs) = charListLeq as bs := by
        simp [charListLeq]
      rw [hstep, charListLeq_iff as bs]
      constructor
      · intro h hlt
        cases hlt with
        | cons h3 => exact h h3
        | rel h1 => exact absurd h1 (lt_irrefl a)
      · intro h hlt
        exact h (List.Lex.cons hlt)
    · have hstep : charListLeq (a :: as) (b :: bs) = decide (a < b) := by
        simp [charListLeq, hab]
      rw [hstep]
      simp only [decide_eq_true_eq]
      rcases lt_trichotomy a b with hlt | heq | hgt
      · constructor
        · intro _ h
          cases h with
          | cons h3 => exact hab rfl
          | rel h1 => exact absurd h1 (lt_asymm hlt)
        · intro _
          exact hlt
      · exact absurd heq hab
      · constructor
        · intro h
          exact absurd h (lt_asymm hgt)
        · intro h
          exact absurd (List.Lex.rel hgt) h

theorem strLeq_eq_decide (s t : String) : strLeq s t = decide (s ≤ t) := by
  by_cases hle : s ≤ t
  · have h1 : strLeq s t = true :=
      (charListLeq_iff s.data t.data).mpr (not_lt.mpr (String.le_iff_toList_le.mp hle))
    simp [h1, hle]
  · have h1 : strLeq s t ≠ true := fun hc =>
      hle (String.le_iff_toList_le.mpr (not_lt.mp ((charListLeq_iff s.data t.data).mp hc)))
    simp only [Bool.not_eq_true] at h1
    simp [h1, hle]

example : parseNum "342" = some ⟨342, 0⟩ := by decide
example : parseNum "342.15e-1" = some ⟨34215, -3⟩ := by decide
example : parseNum "42.15e-1" = some ⟨4215, -3⟩ := by decide
example : parseNum "arbitraryString" = none := by decide
example : jsLeq (.str "342") (.str "42") = true := by decide
example : jsLeq (.num ⟨342, 0⟩) (.str "42") = false := by decide
example : jsLeq (.str "342") (.num ⟨42, 0⟩) = false := by decide
example : jsLeq (.num ⟨42, 0⟩) (.str "342") = true := by decide
example : jsLeq (.str "42") (.num ⟨342, 0⟩) = true := by decide
example : jsLeq (.num ⟨42, 0⟩) (.str "42") = true := by decide
example : jsLeq (.num ⟨342, 0⟩) (.num ⟨42, 0⟩) = false := by decide
example : jsLeq (.str "342.15e-1") (.str "42.15e-1") = true := by decide
example : jsLeq (.num ⟨34215, -3⟩) (.str "42.15e-1") = false := by decide
example : jsLeq (.str "342.15e-1") (.num ⟨4215, -3⟩) = false := by decide
example : jsLeq (.str "342.15") (.num ⟨34215, -2⟩) = true := by decide
example : jsLeq (.str "342.15") (.str "342.15") = true := by decide
example : jsLeq .undef (.str "42") = false := by decide
example : jsLeq (.num ⟨42, 0⟩) .undef = false := by decide
example : jsLeq .undef .undef = false := by decide

/-- C1: for `LessThanOrEqualsValidation` and `GreaterThanOrEqualsValidation`,
operands of the same type are compared with that type's native comparison
(strings lexicographically — so "342" <= "42" is valid — and numbers by
their numeric order), a string/number mix is compared numerically after
coercing the string, and any undefined operand makes the validation
invalid. -/
theorem comparison_validations_typed_semantics :
    (∀ a b : String,
        LessThanOrEqualsValidation.isValid (.str a) (.str b) = decide (a ≤ b) ∧
        GreaterThanOrEqualsValidation.isValid (.str a) (.str b) = decide (b ≤ a)) ∧
    (∀ a b : Decimal,
        LessThanOrEqualsValidation.isValid (.num a) (.num b) = decide (a.toRat ≤ b.toRat) ∧
        GreaterThanOrEqualsValidation.isValid (.num a) (.num b) = decide (b.toRat ≤ a.toRat)) ∧
    (∀ (s : String) (q b : Decimal), parseNum s = some q →
        LessThanOrEqualsValidation.isValid (.str s) (.num b) = decide (q.toRat ≤ b.toRat) ∧
        LessThanOrEqualsValidation.isValid (.num b) (.str s) = decide (b.toRat ≤ q.toRat) ∧
        GreaterThanOrEqualsValidation.isValid (.str s) (.num b) = decide (b.toRat ≤ q.toRat) ∧
        GreaterThanOrEqualsValidation.isValid (.num b) (.str s) = decide (q.toRat ≤ b.toRat)) ∧
    (∀ v : ValidationValueType,
        LessThanOrEqualsValidation.isValid .undef v = false ∧
        LessThanOrEqualsValidation.isValid v .undef = false ∧
        GreaterThanOrEqualsValidation.isValid .undef v = false ∧
        GreaterThanOrEqualsValidation.isValid v .undef = false) ∧
    LessThanOrEqualsValidation.isValid (.str "342") (.str "42") = true := by
  refine ⟨?_, ?_, ?_, ?_, by decide⟩
  · intro a b
    exact ⟨strLeq_eq_decide a b, strLeq_eq_decide b a⟩
  · intro a b
    exact ⟨Decimal.ble_eq_decide a b, Decimal.ble_eq_decide b a⟩
  · intro s q b hp
    refine ⟨?_, ?_, ?_, ?_⟩ <;>
      simp [LessThanOrEqualsValidation.isValid, GreaterThanOrEqualsValidation.isValid,
        jsLeq, hp, Decimal.ble_eq_decide]
  · intro v
    cases v <;>
      simp [LessThanOrEqualsValidation.isValid, GreaterThanOrEqualsValidation.isValid, jsLeq]

/-- Witness for C1 at concrete operands. -/
theorem comparison_validations_typed_semantics_witness :
    parseNum "342" = some ⟨342, 0⟩ ∧
    LessThanOrEqualsValidation.isValid (.str "342") (.num ⟨42, 0⟩) =
      decide ((Decimal.mk 342 0).toRat ≤ (Decimal.mk 42 0).toRat) :=
  ⟨by decide,
    (comparison_validations_typed_semantics.2.2.1 "342" ⟨342, 0⟩ ⟨42, 0⟩ (by decide)).1⟩

/-! ## SQL database projects (`models/project.ts`)

Modelled from the spec: the implementation `models/project.ts` of the
sql-database-projects extension is not under the source tree; only its
test suite `project.test.ts` is.  The spec describes this component as
`.sqlproj` read/modify bookkeeping against an MSBuild-style schema.  The
model keeps the project state the tests observe — the database reference
list, the SQLCMD variable map and the imported targets — and follows the
behavior the spec and the tests pin down: duplicate database references
are rejected with the `databaseReferenceAlreadyExists` error and leave
the project unchanged, `updateProjectForRoundTrip` backs the project file
up at `<path>_backup` before rewriting it and adds one imported target,
and `addSqlCmdVariable` overwrites an existing variable of the same
name. -/

/-- The system databases a system database reference can target. -/
inductive SystemDatabase where
  | master
  | msdb
deriving DecidableEq

/-- One entry of a project's `databaseReferences` list.  `fsPath` is the
referenced dacpac's path, the identity used for duplicate detection. -/
structure DatabaseReferenceEntry where
  fsPath : String
  databaseName : String
  suppressMissingDependenciesErrors : Bool
deriving DecidableEq

/-- The errors of the modelled project operations. -/
inductive ProjectError where
  | databaseReferenceAlreadyExists
deriving DecidableEq

/-- The project state observed by the tests. -/
structure Project where
  projFilePath : String
  databaseReferences : List DatabaseReferenceEntry
  sqlCmdVariables : List (String × String)
  importedTargets : List String
deriving DecidableEq

/-- An effect on the file system. -/
inductive FsOp where
  | write (path content : String)
deriving DecidableEq

/-- `op` writes the file at `path`. -/
def FsOp.writesTo (op : FsOp) (path : String) : Prop :=
  match op with
  | .write q _ => q = path

instance (op : FsOp) (path : String) : Decidable (op.writesTo path) := by
  cases op with
  | write q c => exact inferInstanceAs (Decidable (q = path))

/-- The dacpac path of a system database. -/
def systemDacpacPath : SystemDatabase → String
  | .master => "$(NETCoreTargetsPath)/SystemDacpacs/150/master.dacpac"
  | .msdb => "$(NETCoreTargetsPath)/SystemDacpacs/150/msdb.dacpac"

/-- The settings of `addSystemDatabaseReference`. -/
structure SystemDatabaseReferenceSettings where
  databaseName : String
  systemDb : SystemDatabase
  suppressMissingDependenciesErrors : Bool
deriving DecidableEq

/-- The settings of `addDatabaseReference` (dacpac references). -/
structure DacpacReferenceSettings where
  dacpacFileLocation : String
  databaseName : Option String
  suppressMissingDependenciesErrors : Bool
deriving DecidableEq

/-- The reference entry a system database reference creates. -/
def SystemDatabaseReferenceSettings.toEntry (s : SystemDatabaseReferenceSettings) :
    DatabaseReferenceEntry :=
  ⟨systemDacpacPath s.systemDb, s.databaseName, s.suppressMissingDependenciesErrors⟩

/-- The database name of a dacpac reference: the dacpac file's base name. -/
def dacpacBaseName (loc : String) : String :=
  ((loc.splitOn "/").getLastD loc).dropRight 7

/-- The reference entry a dacpac reference creates. -/
def DacpacReferenceSettings.toEntry (s : DacpacReferenceSettings) :
    DatabaseReferenceEntry :=
  ⟨s.dacpacFileLocation, s.databaseName.getD (dacpacBaseName s.dacpacFileLocation),
    s.suppressMissingDependenciesErrors⟩

/-- A reference equivalent to `e` (same referenced path) is already in the
project. -/
def Project.databaseReferenceExists (p : Project) (e : DatabaseReferenceEntry) : Bool :=
  p.databaseReferences.any (fun r => r.fsPath = e.fsPath)

/-- `addSystemDatabaseReference`: rejects an equivalent existing reference
with `databaseReferenceAlreadyExists`, otherwise appends the entry.  The
result pairs the thrown error (if any) with the post-call project
state. -/
def Project.addSystemDatabaseReference (p : Project)
    (s : SystemDatabaseReferenceSettings) : Option ProjectError × Project :=
  let entry := s.toEntry
  if p.databaseReferenceExists entry then
    (some .databaseReferenceAlreadyExists, p)
  else
    (none, { p with databaseReferences := p.databaseReferences ++ [entry] })

/-- `addDatabaseReference` for dacpac references; same duplicate check. -/
def Project.addDatabaseReference (p : Project)
    (s : DacpacReferenceSettings) : Option ProjectError × Project :=
  let entry := s.toEntry
  if p.databaseReferenceExists entry then
    (some .databaseReferenceAlreadyExists, p)
  else
    (none, { p with databaseReferences := p.databaseReferences ++ [entry] })

/-- C2: adding a database reference equivalent to an existing one — via
`addSystemDatabaseReference` or `addDatabaseReference` — fails with the
`databaseReferenceAlreadyExists` error and leaves `databaseReferences`
(indeed the whole project state) unchanged. -/
theorem addDatabaseReference_duplicate_rejected (p : Project) :
    (∀ s : SystemDatabaseReferenceSettings,
        p.databaseReferenceExists s.toEntry = true →
        p.addSystemDatabaseReference s = (some .databaseReferenceAlreadyExists, p)) ∧
    (∀ s : DacpacReferenceSettings,
        p.databaseReferenceExists s.toEntry = true →
        p.addDatabaseReference s = (some .databaseReferenceAlreadyExists, p)) := by
  constructor
  · intro s h
    simp [Project.addSystemDatabaseReference, h]
  · intro s h
    simp [Project.addDatabaseReference, h]

/-- Witness for C2: re-adding the `master` reference of a concrete
project fails and leaves the project unchanged. -/
theorem addDatabaseReference_duplicate_rejected_witness :
    (Project.mk "proj.sqlproj"
        [⟨systemDacpacPath .master, "master", false⟩] [] []).databaseReferenceExists
      (SystemDatabaseReferenceSettings.mk "master" .master false).toEntry = true ∧
    (Project.mk "proj.sqlproj"
        [⟨systemDacpacPath .master, "master", false⟩] [] []).addSystemDatabaseReference
      (SystemDatabaseReferenceSettings.mk "master" .master false) =
      (some .databaseReferenceAlreadyExists,
       Project.mk "proj.sqlproj" [⟨systemDacpacPath .master, "master", false⟩] [] []) :=
  ⟨by decide,
    (addDatabaseReference_duplicate_rejected
      (Project.mk "proj.sqlproj" [⟨systemDacpacPath .master, "master", false⟩] [] [])).1
      (SystemDatabaseReferenceSettings.mk "master" .master false) (by decide)⟩

/-- The additional target `updateProjectForRoundTrip` imports. -/
def roundTripImportedTarget : String :=
  "$(NETCoreTargetsPath)\\Microsoft.Data.Tools.Schema.SqlTasks.targets"

/-- Rendering of the project file after an update; the claims under study
do not depend on its exact shape. -/
def renderProject (p : Project) : String :=
  String.intercalate ";" p.importedTargets

/-- `updateProjectForRoundTrip`: writes a backup of the current project
file content at `<path>_backup`, then adds the ADS import target and
rewrites the project file.  The result pairs the updated project with the
file writes in order. -/
def Project.updateProjectForRoundTrip (p : Project) (currentContent : String) :
    Project × List FsOp :=
  let p' := { p with importedTargets := p.importedTargets ++ [roundTripImportedTarget] }
  (p', [.write (p.projFilePath ++ "_backup") currentContent,
        .write p.projFilePath (renderProject p')])

theorem backupPath_ne (path : String) : path ++ "_backup" ≠ path := by
  intro h
  have hlen := congrArg String.length h
  rw [String.length_append] at hlen
  have h7 : ("_backup" : String).length = 7 := rfl
  omega

/-- C3: on a project with two imported targets,
`updateProjectForRoundTrip` writes a backup of the project file at
`<project file path> ++ "_backup"`, every write to the project file
itself comes after that backup write, and the imported-target count goes
from 2 to 3. -/
theorem updateProjectForRoundTrip_spec (p : Project) (content : String)
    (h2 : p.importedTargets.length = 2) :
    FsOp.write (p.projFilePath ++ "_backup") content ∈
      (p.updateProjectForRoundTrip content).2 ∧
    (∀ j : Fin (p.updateProjectForRoundTrip content).2.length,
        ((p.updateProjectForRoundTrip content).2.get j).writesTo p.projFilePath →
        ∃ i : Fin (p.updateProjectForRoundTrip content).2.length,
          (i : Nat) < (j : Nat) ∧
          (p.updateProjectForRoundTrip content).2.get i =
            FsOp.write (p.projFilePath ++ "_backup") content) ∧
    (p.updateProjectForRoundTrip content).1.importedTargets.length = 3 := by
  refine ⟨List.mem_cons_self _ _, ?_, ?_⟩
  · intro j hj
    fin_cases j
    · exact absurd hj (backupPath_ne p.projFilePath)
    · exact ⟨⟨0, by simp [Project.updateProjectForRoundTrip]⟩, by simp, rfl⟩
  · simp [Project.updateProjectForRoundTrip, h2]

/-- Witness for C3 on a concrete two-target project. -/
theorem updateProjectForRoundTrip_spec_witness :
    (Project.mk "p.sqlproj" [] [] ["t1", "t2"]).importedTargets.length = 2 ∧
    ((Project.mk "p.sqlproj" [] [] ["t1", "t2"]).updateProjectForRoundTrip
        "oldContent").1.importedTargets.length = 3 :=
  ⟨by decide,
    (updateProjectForRoundTrip_spec (Project.mk "p.sqlproj" [] [] ["t1", "t2"])
      "oldContent" (by decide)).2.2⟩

/-- The SQLCMD-variable map update: overwrite the value when a variable
of that name exists, otherwise append a new entry (the behavior of the
JavaScript object assignment `sqlCmdVariables[name] = value`). -/
def insertSqlCmdVar (m : List (String × String)) (name value : String) :
    List (String × String) :=
  if m.any (fun kv => decide (kv.1 = name)) then
    m.map (fun kv => if kv.1 = name then (name, value) else kv)
  else
    m ++ [(name, value)]

/-- `addSqlCmdVariable`. -/
def Project.addSqlCmdVariable (p : Project) (name value : String) : Project :=
  { p with sqlCmdVariables := insertSqlCmdVar p.sqlCmdVariables name value }

/-- A whole sequence of `addSqlCmdVariable` calls. -/
def Project.addSqlCmdVariables (p : Project) (calls : List (String × String)) : Project :=
  calls.foldl (fun q c => q.addSqlCmdVariable c.1 c.2) p

/-- The value of SQLCMD variable `name`. -/
def Project.lookupSqlCmdVariable (p : Project) (name : String) : Option String :=
  (p.sqlCmdVariables.find? (fun kv => decide (kv.1 = name))).map Prod.snd

/-- The raw-list form of a sequence of updates. -/
def applySqlCmdVars (calls : List (String × String)) (m : List (String × String)) :
    List (String × String) :=
  calls.foldl (fun acc c => insertSqlCmdVar acc c.1 c.2) m

theorem addSqlCmdVariables_sqlCmdVariables (p : Project) (calls : List (String × String)) :
    (p.addSqlCmdVariables calls).sqlCmdVariables = applySqlCmdVars calls p.sqlCmdVariables := by
  induction calls generalizing p with
  | nil => rfl
  | cons c cs ih =>
    rw [Project.addSqlCmdVariables, List.foldl_cons, ← Project.addSqlCmdVariables, ih]
    rfl

theorem find?_map_overwrite_self (tl : List (String × String)) (name value : String) :
    (∃ kv ∈ tl, kv.1 = name) →
    (tl.map (fun kv => if kv.1 = name then (name, value) else kv)).find?
        (fun kv => decide (kv.1 = name)) = some (name, value) := by
  induction tl with
  | nil =>
    rintro ⟨kv, hkv, -⟩
    cases hkv
  | cons hd tl ih =>
    rintro ⟨kv, hkv, hkey⟩
    by_cases h : hd.1 = name
    · simp [h]
    · have hmem : kv ∈ tl := by
        rcases List.mem_cons.mp hkv with he | hm
        · exact absurd (he ▸ hkey) h
        · exact hm
      simp only [List.map_cons, if_neg h]
      rw [List.find?_cons_of_neg _ (by simpa using h)]
      exact ih ⟨kv, hmem, hkey⟩

theorem find?_insertSqlCmdVar_self (m : List (String × String)) (name value : String) :
    (insertSqlCmdVar m name value).find? (fun kv => decide (kv.1 = name)) =
      some (name, value) := by
  rw [insertSqlCmdVar]
  by_cases hany : m.any (fun kv => decide (kv.1 = name)) = true
  · rw [if_pos hany]
    obtain ⟨kv, hkv, hp⟩ := List.any_eq_true.mp hany
    exact find?_map_overwrite_self m name value ⟨kv, hkv, by simpa using hp⟩
  · rw [if_neg hany]
    rw [List.find?_append]
    have hnone : m.find? (fun kv => decide (kv.1 = name)) = none := by
      rw [List.find?_eq_none]
      intro kv hkv hp
      exact hany (List.any_eq_true.mpr ⟨kv, hkv, hp⟩)
    simp [hnone]

theorem find?_map_overwrite (tl : List (String × String)) (name value other : String)
    (h : other ≠ name) :
    (tl.map (fun kv => if kv.1 = name then (name, value) else kv)).find?
        (fun kv => decide (kv.1 = other)) =
      tl.find? (fun kv => decide (kv.1 = other)) := by
  have hno : ¬ (name = other) := fun he => h he.symm
  induction tl with
  | nil => rfl
  | cons hd tl ih =>
    by_cases hh : hd.1 = name
    · have hne2 : ¬ (hd.1 = other) := by
        rw [hh]
        exact hno
      simp only [List.map_cons, if_pos hh]
      rw [List.find?_cons_of_neg _ (by simpa using hno),
        List.find?_cons_of_neg _ (by simpa using hne2)]
      exact ih
    · simp only [List.map_cons, if_neg hh]
      by_cases ho : hd.1 = other
      · rw [List.find?_cons_of_pos _ (by simpa using ho),
          List.find?_cons_of_pos _ (by simpa using ho)]
      · rw [List.find?_cons_of_neg _ (by simpa using ho),
          List.find?_cons_of_neg _ (by simpa using ho)]
        exact ih

theorem find?_insertSqlCmdVar_other (m : List (String × String)) (name value other : String)
    (h : other ≠ name) :
    (insertSqlCmdVar m name value).find? (fun kv => decide (kv.1 = other)) =
      m.find? (fun kv => decide (kv.1 = other)) := by
  rw [insertSqlCmdVar]
  by_cases hany : m.any (fun kv => decide (kv.1 = name)) = true
  · rw [if_pos hany]
    exact find?_map_overwrite m name value other h
  · rw [if_neg hany, List.find?_append]
    have hno : ¬ (name = other) := fun he => h he.symm
    have hsingle : ([(name, value)].find? (fun kv => decide (kv.1 = other))) = none := by
      simp [hno]
    rw [hsingle]
    cases m.find? (fun kv => decide (kv.1 = other)) <;> rfl

theorem map_fst_insertSqlCmdVar (m : List (String × String)) (name value : String) :
    (insertSqlCmdVar m name value).map Prod.fst =
      if m.any (fun kv => decide (kv.1 = name)) then m.map Prod.fst
      else m.map Prod.fst ++ [name] := by
  rw [insertSqlCmdVar]
  by_cases hany : m.any (fun kv => decide (kv.1 = name)) = true
  · rw [if_pos hany, if_pos hany, List.map_map]
    apply List.map_congr_left
    intro kv _
    by_cases h : kv.1 = name
    · simp [h, Function.comp]
    · simp [h, Function.comp]
  · rw [if_neg hany, if_neg hany]
    simp

theorem length_insertSqlCmdVar (m : List (String × String)) (name value : String) :
    (insertSqlCmdVar m name value).length =
      if m.any (fun kv => decide (kv.1 = name)) then m.length else m.length + 1 := by
  rw [insertSqlCmdVar]
  by_cases hany : m.any (fun kv => decide (kv.1 = name)) = true
  · rw [if_pos hany, if_pos hany, List.length_map]
  · rw [if_neg hany, if_neg hany]
    simp

theorem any_key_iff (m : List (String × String)) (name : String) :
    m.any (fun kv => decide (kv.1 = name)) = true ↔ name ∈ m.map Prod.fst := by
  rw [List.any_eq_true]
  constructor
  · rintro ⟨kv, hkv, hp⟩
    exact List.mem_map.mpr ⟨kv, hkv, by simpa using hp⟩
  · intro hm
    obtain ⟨kv, hkv, he⟩ := List.mem_map.mp hm
    exact ⟨kv, hkv, by simpa using he⟩

theorem applySqlCmdVars_step (l : List (String × String)) (c : String × String) :
    applySqlCmdVars (l ++ [c]) [] = insertSqlCmdVar (applySqlCmdVars l []) c.1 c.2 := by
  rw [applySqlCmdVars, List.foldl_append]
  rfl

theorem applySqlCmdVars_keys (calls : List (String × String)) :
    ((applySqlCmdVars calls []).map Prod.fst).Nodup ∧
      ((applySqlCmdVars calls []).map Prod.fst).toFinset =
        (calls.map Prod.fst).toFinset := by
  induction calls using List.reverseRecOn with
  | nil => simp [applySqlCmdVars]
  | append_singleton l c ih =>
    obtain ⟨hnd, hset⟩ := ih
    rw [applySqlCmdVars_step]
    have hkeys := map_fst_insertSqlCmdVar (applySqlCmdVars l []) c.1 c.2
    by_cases hany : (applySqlCmdVars l []).any (fun kv => decide (kv.1 = c.1)) = true
    · rw [if_pos hany] at hkeys
      have hmem : c.1 ∈ (l.map Prod.fst).toFinset := by
        rw [← hset]
        exact List.mem_toFinset.mpr ((any_key_iff _ _).mp hany)
      refine ⟨hkeys ▸ hnd, ?_⟩
      rw [hkeys, hset, List.map_append, List.toFinset_append]
      simp only [List.map_cons, List.map_nil, List.toFinset_cons, List.toFinset_nil,
        insert_emptyc_eq]
      exact (Finset.union_eq_left.mpr (Finset.singleton_subset_iff.mpr hmem)).symm
    · rw [if_neg hany] at hkeys
      have hnotmem : c.1 ∉ (applySqlCmdVars l []).map Prod.fst := fun hmem =>
        hany ((any_key_iff _ _).mpr hmem)
      constructor
      · rw [hkeys]
        refine List.Nodup.append hnd (List.nodup_singleton _) ?_
        intro a ha hb
        rw [List.mem_singleton] at hb
        exact hnotmem (hb ▸ ha)
      · rw [hkeys, List.toFinset_append, hset, List.map_append, List.toFinset_append]
        rfl

theorem applySqlCmdVars_find? (calls : List (String × String)) (name : String) :
    (applySqlCmdVars calls []).find? (fun kv => decide (kv.1 = name)) =
      (calls.reverse.find? (fun c => decide (c.1 = name))).map (fun c => (name, c.2)) := by
  induction calls using List.reverseRecOn with
  | nil => rfl
  | append_singleton l c ih =>
    rw [applySqlCmdVars_step, List.reverse_append]
    simp only [List.reverse_cons, List.reverse_nil, List.nil_append, List.singleton_append]
    by_cases h : c.1 = name
    · subst h
      rw [find?_insertSqlCmdVar_self, List.find?_cons_of_pos _ (by simp)]
      rfl
    · rw [find?_insertSqlCmdVar_other _ _ _ _ (fun he => h he.symm), ih,
        List.find?_cons_of_neg _ (by simpa using h)]

/-- C4: starting from a project with no SQLCMD variables, any sequence of
`addSqlCmdVariable` calls yields last-write-wins overwrite semantics:
each name maps to its most recently added value, and the size of the
variable map equals the number of distinct names added. -/
theorem addSqlCmdVariable_last_write_wins (p : Project)
    (h0 : p.sqlCmdVariables = []) (calls : List (String × String)) :
    (∀ name, (p.addSqlCmdVariables calls).lookupSqlCmdVariable name =
        (calls.reverse.find? (fun c => decide (c.1 = name))).map Prod.snd) ∧
    (p.addSqlCmdVariables calls).sqlCmdVariables.length =
      (calls.map Prod.fst).toFinset.card := by
  have hvars : (p.addSqlCmdVariables calls).sqlCmdVariables = applySqlCmdVars calls [] := by
    rw [addSqlCmdVariables_sqlCmdVariables, h0]
  constructor
  · intro name
    rw [Project.lookupSqlCmdVariable, hvars, applySqlCmdVars_find? calls name]
    cases calls.reverse.find? (fun c => decide (c.1 = name)) <;> rfl
  · obtain ⟨hnd, hset⟩ := applySqlCmdVars_keys calls
    rw [hvars, ← List.length_map (applySqlCmdVars calls []) Prod.fst,
      ← List.toFinset_card_of_nodup hnd, hset]

/-- Witness for C4 on the test's call sequence shape: add `A`, add `B`,
then overwrite `A`. -/
theorem addSqlCmdVariable_last_write_wins_witness :
    (Project.mk "p.sqlproj" [] [] []).sqlCmdVariables = [] ∧
    ((Project.mk "p.sqlproj" [] [] []).addSqlCmdVariables
        [("A", "1"), ("B", "2"), ("A", "3")]).lookupSqlCmdVariable "A" = some "3" ∧
    ((Project.mk "p.sqlproj" [] [] []).addSqlCmdVariables
        [("A", "1"), ("B", "2"), ("A", "3")]).sqlCmdVariables.length = 2 := by
  refine ⟨rfl, ?_, ?_⟩
  · rw [(addSqlCmdVariable_last_write_wins (Project.mk "p.sqlproj" [] [] []) rfl
      [("A", "1"), ("B", "2"), ("A", "3")]).1 "A"]
    rfl
  · rw [(addSqlCmdVariable_last_write_wins (Project.mk "p.sqlproj" [] [] []) rfl
      [("A", "1"), ("B", "2"), ("A", "3")]).2]
    rfl

/-! ## Jupyter Python installation (notebook extension,
`jupyterServerInstallation.ts`)

`startInstallProcess` and `promptForPythonInstall` guard a single
installation with the `_installInProgress` flag and the
`_installCompletion` deferred promise.  The state machine below embeds
exactly the branch structure of the two methods: completion promises are
identified by numeric ids, and `settled` records which completion
promises have settled. -/

/-- The promise a call to `startInstallProcess` or
`promptForPythonInstall` returns. -/
inductive InstallCallResult where
  /-- `Promise.reject(msgPythonRunningError)`: Python is running at the
  target path and the install does not target an existing Python. -/
  | rejectedPythonRunning
  /-- The in-progress installation's `_installCompletion` promise. -/
  | pendingCompletion (id : Nat)
  /-- A fresh `_installCompletion` promise; a new installation starts. -/
  | startedInstall (id : Nat)
  /-- `Promise.resolve()`: `promptForPythonInstall` on a SAW machine. -/
  | resolvedImmediately
  /-- `promptForPythonInstall` opens the configure-Python wizard. -/
  | wizardFlow
  /-- `promptForPythonInstall` finds everything already installed. -/
  | noActionNeeded
deriving DecidableEq

/-- The fields of `JupyterServerInstallation` the two methods read and
write: the `_installInProgress` flag, the identity of the current
`_installCompletion` deferred, a fresh-id counter and the set of settled
completion promises. -/
structure InstallationState where
  installInProgress : Bool
  completionId : Nat
  nextId : Nat
  settled : List Nat
deriving DecidableEq

/-- `startInstallProcess(forceInstall, installSettings)`:
`existingPython` is `installSettings.existingPython` and `pythonRunning`
is the result of the `isPythonRunning` check (only performed when not
using an existing Python).  Branch order follows the source: the
python-running rejection comes before the in-progress check. -/
def startInstallProcess (existingPython pythonRunning : Bool)
    (st : InstallationState) : InstallCallResult × InstallationState :=
  if !existingPython && pythonRunning then
    (.rejectedPythonRunning, st)
  else if st.installInProgress then
    (.pendingCompletion st.completionId, st)
  else
    (.startedInstall st.nextId,
      { st with installInProgress := true, completionId := st.nextId,
                nextId := st.nextId + 1 })

/-- `promptForPythonInstall(kernelDisplayName)`: `runningOnSAW` is
`_runningOnSAW`, and `needsInstall` is
`!isPythonInstalled || !areRequiredPackagesInstalled`.  Branch order
follows the source: the SAW short-circuit comes before the in-progress
check. -/
def promptForPythonInstall (runningOnSAW needsInstall : Bool)
    (st : InstallationState) : InstallCallResult × InstallationState :=
  if runningOnSAW then
    (.resolvedImmediately, st)
  else if st.installInProgress then
    (.pendingCompletion st.completionId, st)
  else if needsInstall then
    (.wizardFlow, st)
  else
    (.noActionNeeded, st)

/-- The end of `installDependencies`'s background operation: the current
completion promise settles (resolves on success, rejects on failure) and
`_installInProgress` is cleared. -/
def finishInstall (success : Bool) (st : InstallationState) : InstallationState :=
  let _ := success
  { st with installInProgress := false, settled := st.settled ++ [st.completionId] }

/-- C5 counterexample: with an installation in progress, a
`startInstallProcess` call whose settings do not target an existing
Python, made while Python is running at the install path, returns the
python-running rejection — not the pending installation's completion
promise — so the claim as stated fails at this input. -/
theorem startInstallProcess_pending_counterexample :
    (InstallationState.mk true 0 1 []).installInProgress = true ∧
    (startInstallProcess false true (InstallationState.mk true 0 1 [])).1 =
      InstallCallResult.rejectedPythonRunning ∧
    (startInstallProcess false true (InstallationState.mk true 0 1 [])).1 ≠
      InstallCallResult.pendingCompletion
        (InstallationState.mk true 0 1 []).completionId := by
  refine ⟨rfl, rfl, ?_⟩
  decide

/-- C5 (amended): while an installation is in progress no call starts a
second one; unless `startInstallProcess`'s early python-running rejection
or `promptForPythonInstall`'s SAW short-circuit fires, the call returns
the pending installation's completion promise and changes no state; and
that promise settles only when the installation finishes — the two calls
never settle it, while `finishInstall` settles exactly it and clears the
in-progress flag. -/
theorem install_in_progress_single (st : InstallationState)
    (h : st.installInProgress = true) :
    (∀ (ep pr : Bool) (id : Nat),
        (startInstallProcess ep pr st).1 ≠ .startedInstall id) ∧
    (∀ (saw need : Bool) (id : Nat),
        (promptForPythonInstall saw need st).1 ≠ .startedInstall id) ∧
    (∀ ep pr : Bool, (ep = true ∨ pr = false) →
        startInstallProcess ep pr st = (.pendingCompletion st.completionId, st)) ∧
    (∀ need : Bool,
        promptForPythonInstall false need st = (.pendingCompletion st.completionId, st)) ∧
    (∀ ep pr : Bool, ((startInstallProcess ep pr st).2).settled = st.settled) ∧
    (∀ saw need : Bool, ((promptForPythonInstall saw need st).2).settled = st.settled) ∧
    (∀ success : Bool,
        (finishInstall success st).settled = st.settled ++ [st.completionId] ∧
        (finishInstall success st).installInProgress = false) := by
  refine ⟨?_, ?_, ?_, ?_, ?_, ?_, ?_⟩
  · intro ep pr id
    cases ep <;> cases pr <;> simp [startInstallProcess, h]
  · intro saw need id
    cases saw <;> cases need <;> simp [promptForPythonInstall, h]
  · intro ep pr hg
    rcases hg with hg | hg <;> subst hg <;> simp [startInstallProcess, h]
  · intro need
    simp [promptForPythonInstall, h]
  · intro ep pr
    cases ep <;> cases pr <;> simp [startInstallProcess, h]
  · intro saw need
    cases saw <;> cases need <;> simp [promptForPythonInstall, h]
  · intro success
    exact ⟨rfl, rfl⟩

/-- Witness for C5 (amended) at a concrete in-progress state. -/
theorem install_in_progress_single_witness :
    (InstallationState.mk true 3 4 []).installInProgress = true ∧
    startInstallProcess true true (InstallationState.mk true 3 4 []) =
      (.pendingCompletion 3, InstallationState.mk true 3 4 []) :=
  ⟨rfl,
    (install_in_progress_single (InstallationState.mk true 3 4 []) rfl).2.2.1
      true true (Or.inl rfl)⟩

/-! ## UserDataAutoSyncService (electron-browser user data sync service)

The service holds the `userDataAutoSync` channel obtained from the shared
process and some inherited enablement state (untouched by the methods
under study).  `ρ` is the abstract type of `channel.call` results and `σ`
the abstract inherited state. -/

/-- An argument value passed over the channel. -/
inductive ChannelArg where
  | str (s : String)
  | bool (b : Bool)
  | strList (l : List String)
deriving DecidableEq

/-- An IPC channel: `call` takes the command name and the optional
argument value. -/
structure Channel (ρ : Type) where
  call : String → Option (List ChannelArg) → ρ

/-- The `UserDataAutoSyncService` state: its channel and the inherited
enablement-service state. -/
structure UserDataAutoSyncService (ρ σ : Type) where
  channel : Channel ρ
  enablementState : σ

/-- `triggerSync(sources, hasToLimitSync, disableCache)`. -/
def UserDataAutoSyncService.triggerSync {ρ σ : Type} (svc : UserDataAutoSyncService ρ σ)
    (sources : List String) (hasToLimitSync disableCache : Bool) :
    ρ × UserDataAutoSyncService ρ σ :=
  (svc.channel.call "triggerSync"
      (some [.strList sources, .bool hasToLimitSync, .bool disableCache]),
    svc)

/-- `turnOn()`. -/
def UserDataAutoSyncService.turnOn {ρ σ : Type} (svc : UserDataAutoSyncService ρ σ) :
    ρ × UserDataAutoSyncService ρ σ :=
  (svc.channel.call "turnOn" none, svc)

/-- `turnOff(everywhere)`. -/
def UserDataAutoSyncService.turnOff {ρ σ : Type} (svc : UserDataAutoSyncService ρ σ)
    (everywhere : Bool) : ρ × UserDataAutoSyncService ρ σ :=
  (svc.channel.call "turnOff" (some [.bool everywhere]), svc)

/-- The spec side of the refinement: a pure forwarder returns exactly the
channel's result for the given command and arguments and leaves the
service state unchanged. -/
def pureForward {ρ σ : Type} (svc : UserDataAutoSyncService ρ σ) (cmd : String)
    (args : Option (List ChannelArg)) : ρ × UserDataAutoSyncService ρ σ :=
  (svc.channel.call cmd args, svc)

/-- C6: `UserDataAutoSyncService` is a pure forwarder — `triggerSync`,
`turnOn` and `turnOff` each return exactly the result of the
corresponding `channel.call` with the same arguments and change no
service state. -/
theorem userDataAutoSyncService_pure_forwarder {ρ σ : Type}
    (svc : UserDataAutoSyncService ρ σ) :
    (∀ (sources : List String) (hasToLimitSync disableCache : Bool),
        svc.triggerSync sources hasToLimitSync disableCache =
          pureForward svc "triggerSync"
            (some [.strList sources, .bool hasToLimitSync, .bool disableCache]) ∧
        (svc.triggerSync sources hasToLimitSync disableCache).1 =
          svc.channel.call "triggerSync"
            (some [.strList sources, .bool hasToLimitSync, .bool disableCache]) ∧
        (svc.triggerSync sources hasToLimitSync disableCache).2 = svc) ∧
    (svc.turnOn = pureForward svc "turnOn" none ∧
      svc.turnOn.1 = svc.channel.call "turnOn" none ∧ svc.turnOn.2 = svc) ∧
    (∀ everywhere : Bool,
        svc.turnOff everywhere = pureForward svc "turnOff" (some [.bool everywhere]) ∧
        (svc.turnOff everywhere).1 =
          svc.channel.call "turnOff" (some [.bool everywhere]) ∧
        (svc.turnOff everywhere).2 = svc) :=
  ⟨fun _ _ _ => ⟨rfl, rfl, rfl⟩, ⟨rfl, rfl, rfl⟩, fun _ => ⟨rfl, rfl, rfl⟩⟩

/-! ## Azure subscription selection (azurecore `commands.ts`) -/

/-- An Azure subscription as used by the command. -/
structure AzureResourceSubscription where
  id : String
  name : String
deriving DecidableEq

/-- A quick-pick entry of the subscription picker. -/
structure SubscriptionQuickPickItem where
  label : String
  picked : Bool
  subscription : AzureResourceSubscription
deriving DecidableEq

/-- `selectedSubscriptionIds` as computed by the
`azure.resource.selectsubscriptions` command: the ids of the previously
selected subscriptions when there are any, otherwise the ids of every
fetched subscription ("ALL subscriptions are selected by default").
`selectedSubscriptions` is the subscription filter service's result;
`none` models an undefined result, replaced by `[]` as in the source. -/
def selectedSubscriptionIds
    (selectedSubscriptions : Option (List AzureResourceSubscription))
    (subscriptions : List AzureResourceSubscription) : List String :=
  let sel := selectedSubscriptions.getD []
  if 0 < sel.length then sel.map (fun s => s.id)
  else subscriptions.map (fun s => s.id)

/-- The quick-pick items: one per fetched subscription, labelled by its
name, `picked` when its id is among `selectedSubscriptionIds`, sorted by
label. -/
def subscriptionQuickPickItems
    (selectedSubscriptions : Option (List AzureResourceSubscription))
    (subscriptions : List AzureResourceSubscription) : List SubscriptionQuickPickItem :=
  (subscriptions.map (fun s =>
      SubscriptionQuickPickItem.mk s.name
        (decide (s.id ∈ selectedSubscriptionIds selectedSubscriptions subscriptions))
        s)).mergeSort
    (fun a b => strLeq a.label b.label)

theorem mem_subscriptionQuickPickItems
    (selected : Option (List AzureResourceSubscription))
    (subs : List AzureResourceSubscription) (item : SubscriptionQuickPickItem) :
    item ∈ subscriptionQuickPickItems selected subs ↔
      ∃ s ∈ subs, item =
        SubscriptionQuickPickItem.mk s.name
          (decide (s.id ∈ selectedSubscriptionIds selected subs)) s := by
  rw [subscriptionQuickPickItems, List.mem_mergeSort, List.mem_map]
  constructor
  · rintro ⟨s, hs, he⟩
    exact ⟨s, hs, he.symm⟩
  · rintro ⟨s, hs, he⟩
    exact ⟨s, hs, he.symm⟩

/-- C7: in the `azure.resource.selectsubscriptions` command, every
fetched subscription appears in the quick-pick list; when the
subscription filter service reports no previously selected subscriptions
(an undefined or empty result) every item is picked; otherwise an item is
picked exactly when its subscription id is among the previously selected
ids. -/
theorem selectsubscriptions_picked_semantics
    (selected : Option (List AzureResourceSubscription))
    (subs : List AzureResourceSubscription) :
    (∀ s ∈ subs, ∃ item ∈ subscriptionQuickPickItems selected subs,
        item.subscription = s) ∧
    ((selected = none ∨ selected = some []) →
        ∀ item ∈ subscriptionQuickPickItems selected subs, item.picked = true) ∧
    (∀ l, selected = some l → l ≠ [] →
        ∀ item ∈ subscriptionQuickPickItems selected subs,
          (item.picked = true ↔ item.subscription.id ∈ l.map (fun s => s.id))) := by
  refine ⟨?_, ?_, ?_⟩
  · intro s hs
    refine ⟨SubscriptionQuickPickItem.mk s.name
      (decide (s.id ∈ selectedSubscriptionIds selected subs)) s, ?_, rfl⟩
    exact (mem_subscriptionQuickPickItems selected subs _).mpr ⟨s, hs, rfl⟩
  · intro hsel item hitem
    obtain ⟨s, hs, he⟩ := (mem_subscriptionQuickPickItems selected subs item).mp hitem
    have hids : selectedSubscriptionIds selected subs = subs.map (fun s => s.id) := by
      rcases hsel with h | h <;> subst h <;> rfl
    subst he
    simp only [hids, decide_eq_true_eq]
    exact List.mem_map_of_mem _ hs
  · intro l hl hne item hitem
    obtain ⟨s, hs, he⟩ := (mem_subscriptionQuickPickItems selected subs item).mp hitem
    have hids : selectedSubscriptionIds selected subs = l.map (fun s => s.id) := by
      subst hl
      rw [selectedSubscriptionIds]
      simp only [Option.getD_some]
      rw [if_pos (List.length_pos.mpr hne)]
    subst he
    simp only [hids, decide_eq_true_eq]

/-- Witness for C7 at a concrete account state: one previously selected
subscription among two fetched ones. -/
theorem selectsubscriptions_picked_semantics_witness :
    (some [AzureResourceSubscription.mk "id1" "alpha"] ≠ (none : Option (List AzureResourceSubscription))) ∧
    (∀ item ∈ subscriptionQuickPickItems
        (some [AzureResourceSubscription.mk "id1" "alpha"])
        [AzureResourceSubscription.mk "id1" "alpha",
         AzureResourceSubscription.mk "id2" "beta"],
      (item.picked = true ↔
        item.subscription.id ∈
          ([AzureResourceSubscription.mk "id1" "alpha"].map (fun s => s.id)))) :=
  ⟨by decide,
    (selectsubscriptions_picked_semantics
        (some [AzureResourceSubscription.mk "id1" "alpha"])
        [AzureResourceSubscription.mk "id1" "alpha",
         AzureResourceSubscription.mk "id2" "beta"]).2.2
      [AzureResourceSubscription.mk "id1" "alpha"] rfl (by decide)⟩

/-! ## New project dialog (data-workspace `newProjectDialog.ts`)

`validate` checks the chosen location with `directoryExist`, modelled as
an oracle `String → Except String Bool` (it can throw).  The result pairs
the boolean the promise resolves to with the error messages shown; the
whole body runs under a `try`/`catch` whose `catch` shows the error and
resolves `false`, so `validate` itself never rejects. -/

/-- `path.join(location, name)` for the single two-segment use here. -/
def pathJoin (a b : String) : String := a ++ "/" ++ b

/-- `constants.ProjectParentDirectoryNotExistError(location)`. -/
def ProjectParentDirectoryNotExistError (location : String) : String :=
  "The selected location " ++ location ++ " does not exist"

/-- `constants.ProjectDirectoryAlreadyExistError(name, location)`. -/
def ProjectDirectoryAlreadyExistError (name location : String) : String :=
  "A directory named " ++ name ++ " already exists in " ++ location

/-- The dialog model fields `validate` reads. -/
structure NewProjectDialogModel where
  name : String
  location : String
deriving DecidableEq

/-- The `try` block of `validate`: errors of `directoryExist`
propagate. -/
def newProjectValidateBody (dirExist : String → Except String Bool)
    (model : NewProjectDialogModel) : Except String (Bool × List String) :=
  match dirExist model.location with
  | .error e => .error e
  | .ok parentDirectoryExists =>
    if !parentDirectoryExists then
      .ok (false, [ProjectParentDirectoryNotExistError model.location])
    else
      match dirExist (pathJoin model.location model.name) with
      | .error e => .error e
      | .ok projectDirectoryExists =>
        if projectDirectoryExists then
          .ok (false, [ProjectDirectoryAlreadyExistError model.name model.location])
        else
          .ok (true, [])

/-- `NewProjectDialog.validate`: the `catch` turns any thrown error into
a shown message and a `false` resolution. -/
def newProjectValidate (dirExist : String → Except String Bool)
    (model : NewProjectDialogModel) : Except String (Bool × List String) :=
  match newProjectValidateBody dirExist model with
  | .ok r => .ok r
  | .error e => .ok (false, [e])

/-- C8: `validate` never rejects, resolves `true` exactly when the
location is an existing directory and no subdirectory named after the
project exists inside it (with no error shown), and shows an error
message in every `false` case — including when `directoryExist`
throws. -/
theorem newProjectDialog_validate_spec (dirExist : String → Except String Bool)
    (model : NewProjectDialogModel) :
    (∃ r, newProjectValidate dirExist model = .ok r) ∧
    (∀ b msgs, newProjectValidate dirExist model = .ok (b, msgs) →
        ((b = true) ↔ (dirExist model.location = .ok true ∧
            dirExist (pathJoin model.location model.name) = .ok false)) ∧
        (b = true → msgs = []) ∧
        (b = false → msgs ≠ [])) := by
  cases h1 : dirExist model.location with
  | error e =>
    have hv : newProjectValidate dirExist model = .ok (false, [e]) := by
      simp [newProjectValidate, newProjectValidateBody, h1]
    refine ⟨⟨_, hv⟩, ?_⟩
    intro b msgs h
    rw [hv] at h
    simp only [Except.ok.injEq, Prod.mk.injEq] at h
    obtain ⟨hb, hm⟩ := h
    subst hb
    subst hm
    exact ⟨by simp [h1], by simp, by simp⟩
  | ok parentDirectoryExists =>
    cases parentDirectoryExists with
    | false =>
      have hv : newProjectValidate dirExist model =
          .ok (false, [ProjectParentDirectoryNotExistError model.location]) := by
        simp [newProjectValidate, newProjectValidateBody, h1]
      refine ⟨⟨_, hv⟩, ?_⟩
      intro b msgs h
      rw [hv] at h
      simp only [Except.ok.injEq, Prod.mk.injEq] at h
      obtain ⟨hb, hm⟩ := h
      subst hb
      subst hm
      exact ⟨by simp [h1], by simp, by simp⟩
    | true =>
      cases h2 : dirExist (pathJoin model.location model.name) with
      | error e =>
        have hv : newProjectValidate dirExist model = .ok (false, [e]) := by
          simp [newProjectValidate, newProjectValidateBody, h1, h2]
        refine ⟨⟨_, hv⟩, ?_⟩
        intro b msgs h
        rw [hv] at h
        simp only [Except.ok.injEq, Prod.mk.injEq] at h
        obtain ⟨hb, hm⟩ := h
        subst hb
        subst hm
        exact ⟨by simp [h2], by simp, by simp⟩
      | ok projectDirectoryExists =>
        cases projectDirectoryExists with
        | true =>
          have hv : newProjectValidate dirExist model =
              .ok (false, [ProjectDirectoryAlreadyExistError model.name model.location]) := by
            simp [newProjectValidate, newProjectValidateBody, h1, h2]
          refine ⟨⟨_, hv⟩, ?_⟩
          intro b msgs h
          rw [hv] at h
          simp only [Except.ok.injEq, Prod.mk.injEq] at h
          obtain ⟨hb, hm⟩ := h
          subst hb
          subst hm
          exact ⟨by simp [h2], by simp, by simp⟩
        | false =>
          have hv : newProjectValidate dirExist model = .ok (true, []) := by
            simp [newProjectValidate, newProjectValidateBody, h1, h2]
          refine ⟨⟨_, hv⟩, ?_⟩
          intro b msgs h
          rw [hv] at h
          simp only [Except.ok.injEq, Prod.mk.injEq] at h
          obtain ⟨hb, hm⟩ := h
          subst hb
          subst hm
          exact ⟨by simp [h1, h2], by simp, by simp⟩

/-- A concrete `directoryExist` oracle: only `"loc"` exists. -/
def sampleDirExist : String → Except String Bool :=
  fun p => if p = "loc" then .ok true else .ok false

/-- Witness for C8: on the concrete oracle, validation of project
`proj` at location `loc` resolves `true`, matching the characterization. -/
theorem newProjectDialog_validate_spec_witness :
    newProjectValidate sampleDirExist (NewProjectDialogModel.mk "proj" "loc") =
      .ok (true, []) ∧
    ((true = true) ↔ (sampleDirExist "loc" = .ok true ∧
        sampleDirExist (pathJoin "loc" "proj") = .ok false)) :=
  ⟨rfl,
    ((newProjectDialog_validate_spec sampleDirExist
        (NewProjectDialogModel.mk "proj" "loc")).2 true [] rfl).1⟩

/-! ## Installed package listing (notebook extension,
`jupyterServerInstallation.ts`)

`getInstalledPipPackages` and `getInstalledCondaPackages` run a list
command and parse its JSON output, with the whole body inside a
`try`/`catch` that logs and returns `[]`.  The environment (file system,
installation state, command execution and JSON parsing) is an oracle
record; command execution and parsing return `Except` since both can
fail. -/

/-- A pip/conda package entry.  `channel` is only populated by conda
(`none` models a missing field, `some ""` an empty one; both are falsy in
the source's filter). -/
structure PythonPkgDetails where
  name : String
  version : String
  channel : Option String
deriving DecidableEq

/-- The environment the two listing methods interact with. -/
structure PkgEnv where
  /-- The optional `pythonExePath` argument of `getInstalledPipPackages`. -/
  pythonExePathArg : Option String
  /-- `fs.existsSync`. -/
  fileExists : String → Bool
  /-- `JupyterServerInstallation.isPythonInstalled()`. -/
  pythonInstalled : Bool
  /-- `isCondaInstalled()`. -/
  condaInstalled : Bool
  /-- `this.pythonExecutable`. -/
  pythonExecutable : String
  /-- `getCondaExePath()`. -/
  condaExePath : String
  /-- `executeBufferedCommand`; may fail. -/
  execCommand : String → Except String String
  /-- `JSON.parse` typed at the expected shape; may fail, and `none`
  models a parsed falsy value such as `null`. -/
  parseJson : String → Except String (Option (List PythonPkgDetails))

/-- The pip list command line. -/
def pipListCommand (env : PkgEnv) : String :=
  "\"" ++ env.pythonExePathArg.getD env.pythonExecutable ++ "\" -m pip list --format=json"

/-- The conda list command line. -/
def condaListCommand (env : PkgEnv) : String :=
  "\"" ++ env.condaExePath ++ "\" list --json"

/-- The `try` block of `getInstalledPipPackages`. -/
def getInstalledPipPackagesBody (env : PkgEnv) : Except String (List PythonPkgDetails) :=
  let missing : Bool :=
    match env.pythonExePathArg with
    | some p => !env.fileExists p
    | none => !env.pythonInstalled
  if missing then .ok []
  else
    match env.execCommand (pipListCommand env) with
    | .error e => .error e
    | .ok packagesInfo =>
      if packagesInfo = "" then .ok []
      else
        match env.parseJson packagesInfo with
        | .error e => .error e
        | .ok none => .ok []
        | .ok (some pkgs) => .ok pkgs

/-- `getInstalledPipPackages`: the `catch` logs and returns `[]`. -/
def getInstalledPipPackages (env : PkgEnv) : Except String (List PythonPkgDetails) :=
  match getInstalledPipPackagesBody env with
  | .ok r => .ok r
  | .error _ => .ok []

/-- The conda filter `pkg && pkg.channel && pkg.channel !== 'pypi'`. -/
def condaChannelFilter (pkg : PythonPkgDetails) : Bool :=
  match pkg.channel with
  | none => false
  | some c => decide (c ≠ "") && decide (c ≠ "pypi")

/-- The `try` block of `getInstalledCondaPackages`. -/
def getInstalledCondaPackagesBody (env : PkgEnv) : Except String (List PythonPkgDetails) :=
  if !env.condaInstalled then .ok []
  else
    match env.execCommand (condaListCommand env) with
    | .error e => .error e
    | .ok packagesInfo =>
      if packagesInfo = "" then .ok []
      else
        match env.parseJson packagesInfo with
        | .error e => .error e
        | .ok none => .ok []
        | .ok (some pkgs) => .ok (pkgs.filter condaChannelFilter)

/-- `getInstalledCondaPackages`: the `catch` logs and returns `[]`. -/
def getInstalledCondaPackages (env : PkgEnv) : Except String (List PythonPkgDetails) :=
  match getInstalledCondaPackagesBody env with
  | .ok r => .ok r
  | .error _ => .ok []

/-- C9: neither listing ever rejects, and each resolves to the empty
package list when the interpreter is missing, when the spawned list
command fails, or when parsing its output fails. -/
theorem installed_packages_never_reject (env : PkgEnv) :
    (∃ l, getInstalledPipPackages env = .ok l) ∧
    (∃ l, getInstalledCondaPackages env = .ok l) ∧
    (env.pythonExePathArg = none → env.pythonInstalled = false →
        getInstalledPipPackages env = .ok []) ∧
    (∀ p, env.pythonExePathArg = some p → env.fileExists p = false →
        getInstalledPipPackages env = .ok []) ∧
    (env.condaInstalled = false → getInstalledCondaPackages env = .ok []) ∧
    (∀ e, env.execCommand (pipListCommand env) = .error e →
        getInstalledPipPackages env = .ok []) ∧
    (∀ e, env.execCommand (condaListCommand env) = .error e →
        getInstalledCondaPackages env = .ok []) ∧
    (∀ s e, env.execCommand (pipListCommand env) = .ok s →
        env.parseJson s = .error e → getInstalledPipPackages env = .ok []) ∧
    (∀ s e, env.execCommand (condaListCommand env) = .ok s →
        env.parseJson s = .error e → getInstalledCondaPackages env = .ok []) := by
  refine ⟨?_, ?_, ?_, ?_, ?_, ?_, ?_, ?_, ?_⟩
  · cases h : getInstalledPipPackagesBody env with
    | ok r => exact ⟨r, by simp [getInstalledPipPackages, h]⟩
    | error e => exact ⟨[], by simp [getInstalledPipPackages, h]⟩
  · cases h : getInstalledCondaPackagesBody env with
    | ok r => exact ⟨r, by simp [getInstalledCondaPackages, h]⟩
    | error e => exact ⟨[], by simp [getInstalledCondaPackages, h]⟩
  · intro h1 h2
    simp [getInstalledPipPackages, getInstalledPipPackagesBody, h1, h2]
  · intro p h1 h2
    simp [getInstalledPipPackages, getInstalledPipPackagesBody, h1, h2]
  · intro h1
    simp [getInstalledCondaPackages, getInstalledCondaPackagesBody, h1]
  · intro e h1
    rw [getInstalledPipPackages, getInstalledPipPackagesBody]
    cases hm : (match env.pythonExePathArg with
      | some p => !env.fileExists p
      | none => !env.pythonInstalled : Bool) with
    | true => simp [hm]
    | false => simp [hm, h1]
  · intro e h1
    rw [getInstalledCondaPackages, getInstalledCondaPackagesBody]
    cases hc : env.condaInstalled with
    | false => simp
    | true => simp [hc, h1]
  · intro s e h1 h2
    rw [getInstalledPipPackages, getInstalledPipPackagesBody]
    cases hm : (match env.pythonExePathArg with
      | some p => !env.fileExists p
      | none => !env.pythonInstalled : Bool) with
    | true => simp [hm]
    | false =>
      by_cases hs : s = ""
      · simp [hm, h1, hs]
      · simp [hm, h1, hs, h2]
  · intro s e h1 h2
    rw [getInstalledCondaPackages, getInstalledCondaPackagesBody]
    cases hc : env.condaInstalled with
    | false => simp
    | true =>
      by_cases hs : s = ""
      · simp [hc, h1, hs]
      · simp [hc, h1, hs, h2]

/-- A concrete failing environment: nothing installed, every command and
parse fails. -/
def sampleFailEnv : PkgEnv where
  pythonExePathArg := none
  fileExists := fun _ => false
  pythonInstalled := false
  condaInstalled := false
  pythonExecutable := "python"
  condaExePath := "conda"
  execCommand := fun _ => .error "spawn failed"
  parseJson := fun _ => .error "unexpected token"

/-- Witness for C9 on the concrete failing environment. -/
theorem installed_packages_never_reject_witness :
    getInstalledPipPackages sampleFailEnv = .ok [] ∧
    getInstalledCondaPackages sampleFailEnv = .ok [] :=
  ⟨(installed_packages_never_reject sampleFailEnv).2.2.1 rfl rfl,
    (installed_packages_never_reject sampleFailEnv).2.2.2.2.1 rfl⟩

/-! ## Connection browser expand-all (`connectionBrowseTab.ts`)

`expandAll` repeatedly expands the data source's expandable tree nodes,
keeps the list of already expanded ones (`expandedTreeItems`), and
refetches `expandableTreeNodes` filtered — by `indexOf === -1`, modelled
with `List.contains` — to nodes not yet expanded, until no new ones
appear.  Tree elements are modelled by numeric identities and the data
source by `env : List Nat → List Nat`, mapping the elements expanded so
far to the current `expandableTreeNodes`.  The loop is written with
explicit fuel; termination for a finite tree is the theorem that
`universe-size + 1` fuel always suffices.  The result is the list of
per-iteration batches of `tree.expand` calls. -/

/-- The loop of `expandAll`: `toExpand` is `treeItemsToExpand` and
`expanded` is `expandedTreeItems`. -/
def expandLoop (env : List Nat → List Nat) :
    Nat → List Nat → List Nat → Option (List (List Nat))
  | 0, _, _ => none
  | fuel + 1, toExpand, expanded =>
    if toExpand.isEmpty then some []
    else
      match expandLoop env fuel
          ((env (expanded ++ toExpand)).filter
            (fun el => !(expanded ++ toExpand).contains el))
          (expanded ++ toExpand) with
      | none => none
      | some batches => some (toExpand :: batches)

/-- `ConnectionBrowserView.expandAll`: starts with the unfiltered
expandable nodes and an empty expanded list. -/
def expandAll (env : List Nat → List Nat) (fuel : Nat) : Option (List (List Nat)) :=
  expandLoop env fuel (env []) []

theorem expandLoop_isSome (env : List Nat → List Nat) (u : Finset Nat)
    (henv : ∀ s, ∀ x ∈ env s, x ∈ u) :
    ∀ (fuel : Nat) (toExpand expanded : List Nat),
      (∀ x ∈ toExpand, x ∈ u ∧ x ∉ expanded) →
      (u.filter (fun x => x ∉ expanded)).card < fuel →
      (expandLoop env fuel toExpand expanded).isSome = true := by
  intro fuel
  induction fuel with
  | zero =>
    intro toExpand expanded _ hcard
    exact absurd hcard (Nat.not_lt_zero _)
  | succ fuel ih =>
    intro toExpand expanded hte hcard
    rw [expandLoop]
    by_cases hemp : toExpand.isEmpty
    · rw [if_pos hemp]
      rfl
    · rw [if_neg hemp]
      obtain ⟨y, hy⟩ := List.exists_mem_of_ne_nil toExpand
        (fun hn => hemp (by simp [hn]))
      obtain ⟨hyu, hyne⟩ := hte y hy
      have hte2 : ∀ x ∈ (env (expanded ++ toExpand)).filter
          (fun el => !(expanded ++ toExpand).contains el),
          x ∈ u ∧ x ∉ expanded ++ toExpand := by
        intro x hx
        rw [List.mem_filter] at hx
        refine ⟨henv _ x hx.1, ?_⟩
        have := hx.2
        simpa using this
      have hsub : u.filter (fun x => x ∉ expanded ++ toExpand) ⊂
          u.filter (fun x => x ∉ expanded) := by
        refine Finset.ssubset_iff_of_subset ?_ |>.mpr ?_
        · intro x hx
          rw [Finset.mem_filter] at hx ⊢
          refine ⟨hx.1, fun hmem => hx.2 ?_⟩
          exact List.mem_append_left _ hmem
        · refine ⟨y, ?_, ?_⟩
          · rw [Finset.mem_filter]
            exact ⟨hyu, hyne⟩
          · rw [Finset.mem_filter]
            rintro ⟨-, hy2⟩
            exact hy2 (List.mem_append_right _ hy)
      have hcard2 : (u.filter (fun x => x ∉ expanded ++ toExpand)).card < fuel := by
        have := Finset.card_lt_card hsub
        omega
      have hrec := ih _ _ hte2 hcard2
      cases hres : expandLoop env fuel
          ((env (expanded ++ toExpand)).filter
            (fun el => !(expanded ++ toExpand).contains el))
          (expanded ++ toExpand) with
      | none =>
        rw [hres] at hrec
        simp at hrec
      | some batches =>
        rfl

theorem expandLoop_avoids_expanded (env : List Nat → List Nat) :
    ∀ (fuel : Nat) (toExpand expanded : List Nat) (batches : List (List Nat)),
      expandLoop env fuel toExpand expanded = some batches →
      (∀ x ∈ toExpand, x ∉ expanded) →
      ∀ b ∈ batches, ∀ x ∈ b, x ∉ expanded := by
  intro fuel
  induction fuel with
  | zero =>
    intro toExpand expanded batches h
    cases h
  | succ fuel ih =>
    intro toExpand expanded batches h hte
    rw [expandLoop] at h
    by_cases hemp : toExpand.isEmpty
    · rw [if_pos hemp] at h
      cases h
      intro b hb
      cases hb
    · rw [if_neg hemp] at h
      cases hres : expandLoop env fuel
          ((env (expanded ++ toExpand)).filter
            (fun el => !(expanded ++ toExpand).contains el))
          (expanded ++ toExpand) with
      | none =>
        rw [hres] at h
        cases h
      | some batches2 =>
        rw [hres] at h
        cases h
        intro b hb
        rcases List.mem_cons.mp hb with hb | hb
        · subst hb
          exact hte
        · intro x hx
          have hrec := ih _ _ _ hres
            (fun x hx => by
              rw [List.mem_filter] at hx
              simpa using hx.2)
            b hb x hx
          intro hmem
          exact hrec (List.mem_append_left _ hmem)

theorem expandLoop_pairwise (env : List Nat → List Nat) :
    ∀ (fuel : Nat) (toExpand expanded : List Nat) (batches : List (List Nat)),
      expandLoop env fuel toExpand expanded = some batches →
      batches.Pairwise (fun b1 b2 => ∀ x ∈ b2, x ∉ b1) := by
  intro fuel
  induction fuel with
  | zero =>
    intro toExpand expanded batches h
    cases h
  | succ fuel ih =>
    intro toExpand expanded batches h
    rw [expandLoop] at h
    by_cases hemp : toExpand.isEmpty
    · rw [if_pos hemp] at h
      cases h
      exact List.Pairwise.nil
    · rw [if_neg hemp] at h
      cases hres : expandLoop env fuel
          ((env (expanded ++ toExpand)).filter
            (fun el => !(expanded ++ toExpand).contains el))
          (expanded ++ toExpand) with
      | none =>
        rw [hres] at h
        cases h
      | some batches2 =>
        rw [hres] at h
        cases h
        refine List.Pairwise.cons ?_ (ih _ _ _ hres)
        intro b hb x hx
        have hav := expandLoop_avoids_expanded env fuel _ _ _ hres
          (fun x hx => by
            rw [List.mem_filter] at hx
            simpa using hx.2)
          b hb x hx
        intro hmem
        exact hav (List.mem_append_right _ hmem)

theorem expandLoop_exit (env : List Nat → List Nat) :
    ∀ (fuel : Nat) (toExpand expanded : List Nat) (batches : List (List Nat)),
      expandLoop env fuel toExpand expanded = some batches →
      toExpand = (env expanded).filter (fun x => !expanded.contains x) →
      (env (expanded ++ batches.flatten)).filter
        (fun x => !(expanded ++ batches.flatten).contains x) = [] := by
  intro fuel
  induction fuel with
  | zero =>
    intro toExpand expanded batches h
    cases h
  | succ fuel ih =>
    intro toExpand expanded batches h hinv
    rw [expandLoop] at h
    by_cases hemp : toExpand.isEmpty
    · rw [if_pos hemp] at h
      cases h
      simp only [List.flatten_nil, List.append_nil]
      rw [← hinv]
      exact List.isEmpty_iff.mp hemp
    · rw [if_neg hemp] at h
      cases hres : expandLoop env fuel
          ((env (expanded ++ toExpand)).filter
            (fun el => !(expanded ++ toExpand).contains el))
          (expanded ++ toExpand) with
      | none =>
        rw [hres] at h
        cases h
      | some batches2 =>
        rw [hres] at h
        cases h
        have hnext := ih _ _ _ hres rfl
        rw [List.flatten_cons, ← List.append_assoc]
        exact hnext

/-- C10: for every finite tree — every data source whose expandable
nodes always lie in a finite universe `u` — `expandAll` terminates within
`u.card + 1` iterations, its iteration batches are pairwise disjoint (a
node expanded in an earlier iteration is never expanded again), and at
exit no unexpanded expandable node remains. -/
theorem expandAll_terminates_expands_once (env : List Nat → List Nat) (u : Finset Nat)
    (henv : ∀ s, ∀ x ∈ env s, x ∈ u) :
    (expandAll env (u.card + 1)).isSome = true ∧
    (∀ batches, expandAll env (u.card + 1) = some batches →
        batches.Pairwise (fun b1 b2 => ∀ x ∈ b2, x ∉ b1) ∧
        (env batches.flatten).filter (fun x => !batches.flatten.contains x) = []) := by
  constructor
  · refine expandLoop_isSome env u henv _ _ _ ?_ ?_
    · intro x hx
      exact ⟨henv [] x hx, by simp⟩
    · have hfil : u.filter (fun x => x ∉ ([] : List Nat)) = u := by
        apply Finset.filter_true_of_mem
        intro x _
        simp
      rw [hfil]
      omega
  · intro batches hb
    refine ⟨expandLoop_pairwise env _ _ _ _ hb, ?_⟩
    have hinit : env ([] : List Nat) =
        (env []).filter (fun x => !([] : List Nat).contains x) := by
      symm
      rw [List.filter_eq_self]
      intro x _
      rfl
    have hfin := expandLoop_exit env _ _ _ _ hb hinit
    simpa using hfin

/-- A concrete two-level data source: the roots `1, 2` are expandable at
first; once both are expanded a new expandable node `3` appears; then
nothing more. -/
def sampleTreeEnv : List Nat → List Nat := fun s =>
  if s.isEmpty then [1, 2] else if s.length = 2 then [3] else []

theorem sampleTreeEnv_bounded :
    ∀ s, ∀ x ∈ sampleTreeEnv s, x ∈ ({1, 2, 3} : Finset Nat) := by
  intro s x hx
  rw [sampleTreeEnv] at hx
  split at hx
  · simp only [List.mem_cons, List.not_mem_nil, or_false] at hx
    rcases hx with rfl | rfl <;> decide
  · split at hx
    · simp only [List.mem_cons, List.not_mem_nil, or_false] at hx
      subst hx
      decide
    · simp at hx

/-- Witness for C10 on the concrete data source and universe. -/
theorem expandAll_terminates_expands_once_witness :
    expandAll sampleTreeEnv (({1, 2, 3} : Finset Nat).card + 1) = some [[1, 2], [3]] ∧
    ([[1, 2], [3]] : List (List Nat)).Pairwise (fun b1 b2 => ∀ x ∈ b2, x ∉ b1) ∧
    (sampleTreeEnv ([[1, 2], [3]] : List (List Nat)).flatten).filter
      (fun x => !([[1, 2], [3]] : List (List Nat)).flatten.contains x) = [] :=
  ⟨by decide,
    (expandAll_terminates_expands_once sampleTreeEnv {1, 2, 3} sampleTreeEnv_bounded).2
      [[1, 2], [3]] (by decide)⟩

end AzureDataStudio
